import Mathlib

/-!
Verification of the forms-watcher polling tool (src/poll_forms.py).

The development shallowly embeds the credential lifecycle and the
polling state machine of the script.  Network interactions are modelled
as oracles: an environment supplies, for each tick, the current time,
the response of the token endpoint to a refresh request, and the raw
outcome of each probe of the status endpoint.  Machine integers are
modelled as Int, fallible code returns Except, and the mutable
`notified` set of the script becomes a Finset String threaded through
an explicit step function.
-/

/-- Token record as persisted by the script: the fields of the JSON body
returned by the token endpoint together with the two fields the script
adds, `_obtained_at` and `_tenant`.  Fields read through `dict.get` with
a default in the Python code are modelled as Option. -/
structure TokenSet where
  access_token : String
  refresh_token : String
  expires_in : Option Int
  obtained_at : Option Int
  tenant : Option String
deriving DecidableEq, Repr

/-- Response of the token endpoint to a refresh-token grant request, as
the script observes it: status code, the parsed body fields it reads on
success, and the `error_description` field (with the raw text fallback)
it reads on failure. -/
structure RefreshResp where
  status : Nat
  error_description : Option String
  text : String
  access_token : String
  refresh_token : String
  expires_in : Option Int
deriving DecidableEq, Repr

/-- The operator-actionable hint printed by `_refresh_tokens` before it
exits: it directs the operator to re-run the interactive auth flow. -/
def reAuthHint : String := "Re-run: forms-watcher auth"

/-- The full fatal message of a failed refresh: the two lines printed by
`_refresh_tokens` before `sys.exit(1)`. -/
def refreshFailMsg (d : String) : String :=
  "Token refresh failed: " ++ d ++ "\n  " ++ reAuthHint

/-- Embedding of `_refresh_tokens`: exchanges the refresh token at the
authority, whose response is the oracle argument `r`.  On any non-200
status the script prints the failure and the re-auth hint and exits,
modelled as `.error`; on 200 it stamps `_obtained_at = now` and keeps
the tenant (default "common"), persists the record and returns it. -/
def _refresh_tokens (now : Int) (tokens : TokenSet) (r : RefreshResp) :
    Except String TokenSet :=
  let tenant := tokens.tenant.getD "common"
  if r.status ≠ 200 then
    .error (refreshFailMsg (r.error_description.getD r.text))
  else
    .ok { access_token := r.access_token
          refresh_token := r.refresh_token
          expires_in := r.expires_in
          obtained_at := some now
          tenant := some tenant }

/-- Embedding of `_ensure_fresh`: refreshes exactly when
`now > obtained_at + expires_in - 300` (missing fields default to 0, as
`dict.get` does in the script), otherwise returns the input unchanged. -/
def _ensure_fresh (now : Int) (tokens : TokenSet) (r : RefreshResp) :
    Except String TokenSet :=
  let obtained := tokens.obtained_at.getD 0
  let expires_in := tokens.expires_in.getD 0
  if now > obtained + expires_in - 300 then _refresh_tokens now tokens r
  else .ok tokens

/-- Watched form descriptor, as built by `_resolve_form` and stored in
forms.json: url, short code, form id, tenant and group ids, and the
optional user-chosen name. -/
structure Form where
  url : String
  short : String
  form_id : String
  tenant : String
  group : String
  name : Option String
deriving DecidableEq, Repr

/-- Label of a form as used by the poll loop: `form.get("name", form["short"])`. -/
def formLabel (f : Form) : String := f.name.getD f.short

/-- Raw outcome of one HTTP probe of the status endpoint, before
classification by `_check_form`.  `http` is a response that was received
and parsed (status code plus the error code and message read from the
body); `timeoutExc` is a raised `httpx.TimeoutException`; `otherExc` is
any other raised exception (including response-parsing failures),
carrying its rendered message. -/
inductive RawResponse where
  | http (status : Nat) (errCode : String) (errMsg : String)
  | timeoutExc
  | otherExc (msg : String)
deriving DecidableEq, Repr

/-- Embedding of `_check_form`: classifies one raw probe outcome into
the `(is_open, detail)` pair the poll loop consumes.  Status 200 is
open; body code "5000" is "closed"; body code "5001" is
"already submitted"; any other code is a diagnostic string; both
exception paths are caught and mapped to not-open diagnostics. -/
def _check_form (r : RawResponse) : Bool × String :=
  match r with
  | .http status code msg =>
      if status = 200 then (true, "OPEN")
      else if code = "5000" then (false, "closed")
      else if code = "5001" then (false, "already submitted")
      else (false, "error " ++ code ++ ": " ++ msg)
  | .timeoutExc => (false, "timeout")
  | .otherExc e => (false, "error: " ++ e)

/-- Observable event of the poll loop: a probe of the form at a given
index in the registry (recording the classified outcome), or an
invocation of the notification sink for that index with the label of
the form. -/
inductive Event where
  | probe (i : Nat) (isOpen : Bool) (detail : String)
  | notify (i : Nat) (lbl : String)
deriving DecidableEq, Repr

/-- Index of the form an event concerns. -/
def eventIdx : Event → Nat
  | .probe i _ _ => i
  | .notify i _ => i

/-- Embedding of the inner `for form in forms` loop of `_poll`, for one
tick: processes the registry entries in order starting at index `i`,
skipping entries whose form_id is already in `notified`; an open probe
notifies and resolves the id, an "already submitted" probe resolves it
silently, anything else leaves the entry pending.  Returns the updated
resolved set together with the list of probe and notify events of the
pass. -/
def pollFormsAux (probes : Nat → RawResponse) :
    List Form → Nat → Finset String → Finset String × List Event
  | [], _, notified => (notified, [])
  | f :: rest, i, notified =>
    if f.form_id ∈ notified then
      pollFormsAux probes rest (i + 1) notified
    else if (_check_form (probes i)).1 then
      let out := pollFormsAux probes rest (i + 1) (insert f.form_id notified)
      (out.1, Event.probe i true (_check_form (probes i)).2 ::
              Event.notify i (formLabel f) :: out.2)
    else if (_check_form (probes i)).2 = "already submitted" then
      let out := pollFormsAux probes rest (i + 1) (insert f.form_id notified)
      (out.1, Event.probe i false (_check_form (probes i)).2 :: out.2)
    else
      let out := pollFormsAux probes rest (i + 1) notified
      (out.1, Event.probe i false (_check_form (probes i)).2 :: out.2)

/-- Oracle environment of a poll run: the wall clock, the refresh
response of the authority and the raw probe outcomes, per tick. -/
structure Env where
  nowAt : Nat → Int
  refreshAt : Nat → RefreshResp
  probeAt : Nat → Nat → RawResponse

/-- State of the poll loop between ticks: still running with the
current token set and resolved ids, exited normally after
"All forms open. Done.", or aborted by `sys.exit(1)` with a fatal
message. -/
inductive PollState where
  | running (tokens : TokenSet) (notified : Finset String)
  | done
  | fatal (msg : String)
deriving DecidableEq

/-- Embedding of one iteration of the `while True` loop of `_poll` at
tick `k`: first `_ensure_fresh` (a failure exits the run before any
probe), then the pass over the registry, then the exit test
`remaining = len(forms) - len(notified) == 0`. -/
def stepTick (forms : List Form) (env : Env) (k : Nat) : PollState → PollState
  | .running tokens notified =>
    match _ensure_fresh (env.nowAt k) tokens (env.refreshAt k) with
    | .error m => .fatal m
    | .ok tokens2 =>
      let notified2 := (pollFormsAux (env.probeAt k) forms 0 notified).1
      if ((forms.length : Int) - (notified2.card : Int)) = 0 then .done
      else .running tokens2 notified2
  | s => s

/-- State of the poll loop before tick `k`, starting from `init`. -/
def stateAt (forms : List Form) (env : Env) (init : PollState) : Nat → PollState
  | 0 => init
  | k + 1 => stepTick forms env k (stateAt forms env init k)

/-- Events emitted during tick `k` from a given pre-tick state: none if
the run is no longer live or if the refresh at the head of the tick
fails, otherwise the events of the pass over the registry. -/
def tickEvents (forms : List Form) (env : Env) (k : Nat) : PollState → List Event
  | .running tokens notified =>
    match _ensure_fresh (env.nowAt k) tokens (env.refreshAt k) with
    | .error _ => []
    | .ok _ => (pollFormsAux (env.probeAt k) forms 0 notified).2
  | _ => []

/-- Concatenated events of ticks 0 .. N-1 of a run. -/
def traceUpTo (forms : List Form) (env : Env) (init : PollState) : Nat → List Event
  | 0 => []
  | N + 1 => traceUpTo forms env init N ++
      tickEvents forms env N (stateAt forms env init N)

/-- Whether an event is a sink invocation for the form at index `i`. -/
def isNotifyFor (i : Nat) : Event → Bool
  | .notify j _ => j == i
  | _ => false

/-- Number of sink invocations for index `i` in an event list. -/
def notifyCount (i : Nat) (evs : List Event) : Nat :=
  (evs.filter (isNotifyFor i)).length

/-- Set of form ids occurring in a registry. -/
def fidFinset (forms : List Form) : Finset String :=
  (forms.map Form.form_id).toFinset

/-- Response of the token endpoint to one poll of the device-code grant
inside `_device_code_auth`: status code, the `error` and
`error_description` fields of the body, and the token fields read on
success. -/
structure AuthResp where
  status : Nat
  error : Option String
  error_description : Option String
  access_token : String
  refresh_token : String
  expires_in : Option Int
deriving DecidableEq, Repr

/-- Classification of one device-code poll response, as the body of the
`while True` loop of `_device_code_auth` performs it: status 200 issues
the token set stamped with `_obtained_at = now` and `_tenant = tenant`;
error `authorization_pending` keeps polling; error `expired_token` is
the expired-challenge exit; anything else is a fatal auth error carrying
the `error_description` of the body (None when absent, as Python prints
it). -/
inductive AuthStep where
  | issued (tokens : TokenSet)
  | pending
  | challengeExpired (msg : String)
  | authError (msg : String)
deriving DecidableEq, Repr

/-- One response classification step of `_device_code_auth`. -/
def authClassify (tenant : String) (now : Int) (r : AuthResp) : AuthStep :=
  if r.status = 200 then
    .issued { access_token := r.access_token
              refresh_token := r.refresh_token
              expires_in := r.expires_in
              obtained_at := some now
              tenant := some tenant }
  else if r.error = some "authorization_pending" then .pending
  else if r.error = some "expired_token" then
    .challengeExpired "Code expired. Try again."
  else .authError ("Error: " ++ (r.error_description.getD "None"))

/-- Result of running the device-code polling loop for a bounded number
of iterations. -/
inductive AuthOutcome where
  | authenticated (t : TokenSet)
  | codeExpired (msg : String)
  | authFailed (msg : String)
  | stillWaiting
deriving DecidableEq, Repr

/-- Embedding of the polling loop of `_device_code_auth`: at iteration
`k` it sleeps `interval` seconds (the interval is fixed before the loop
and passed unchanged to every iteration), posts to the token endpoint
(response given by the oracle `resps`), and classifies the response;
`fuel` bounds the number of iterations observed, since the script loops
until a terminal response. -/
def _device_code_auth (tenant : String) (interval : Int) (nowAt : Nat → Int)
    (resps : Nat → AuthResp) : Nat → Nat → AuthOutcome
  | _, 0 => .stillWaiting
  | k, fuel + 1 =>
    match authClassify tenant (nowAt k) (resps k) with
    | .issued t => .authenticated t
    | .pending => _device_code_auth tenant interval nowAt resps (k + 1) fuel
    | .challengeExpired m => .codeExpired m
    | .authError m => .authFailed m

/-- Modelled from the code of `_save_tokens`: `open(TOKEN_FILE, "w")`
first truncates the file in place, then `json.dump` writes the new
contents.  This lists the on-disk contents of TOKEN_FILE observable
during one save, in order: the old contents, the truncated (empty)
file, the fully written new contents.  `none` would denote a missing
file; a present file holds a string. -/
def _save_tokens_states (old : Option String) (toknew : String) : List (Option String) :=
  [old, some "", some toknew]

/-- A token set that stays fresh for all the small test clocks below. -/
def tokFresh : TokenSet :=
  { access_token := "a", refresh_token := "r", expires_in := some 1000000,
    obtained_at := some 0, tenant := some "common" }

/-- A token set sitting exactly at the refresh boundary
`obtained_at + expires_in - 300 = 0`. -/
def tokBoundary : TokenSet :=
  { access_token := "a", refresh_token := "r", expires_in := some 300,
    obtained_at := some 0, tenant := some "common" }

/-- A successful refresh response. -/
def refreshOk : RefreshResp :=
  { status := 200, error_description := none, text := "",
    access_token := "a2", refresh_token := "r2", expires_in := some 3600 }

/-- A rejected refresh response, as the authority returns for a revoked
or expired refresh token. -/
def refreshRejected : RefreshResp :=
  { status := 400, error_description := some "invalid_grant", text := "",
    access_token := "", refresh_token := "", expires_in := none }

/-- A sample watched form. -/
def formA : Form :=
  { url := "https://forms.office.com/r/aaa", short := "aaa",
    form_id := "A", tenant := "T", group := "G", name := some "FormA" }

/-- First of two descriptors sharing the form_id "F". -/
def formDupA : Form :=
  { url := "https://forms.office.com/r/d1", short := "d1",
    form_id := "F", tenant := "T", group := "G", name := some "Dup1" }

/-- Second of two descriptors sharing the form_id "F". -/
def formDupB : Form :=
  { url := "https://forms.office.com/r/d2", short := "d2",
    form_id := "F", tenant := "T", group := "G", name := some "Dup2" }

/-- A registry holding two descriptors with the same form_id. -/
def dupForms : List Form := [formDupA, formDupB]

/-- Environment: fresh clock, refresh always succeeds, every probe
returns HTTP 200 (open). -/
def envOpen : Env :=
  { nowAt := fun _ => 0, refreshAt := fun _ => refreshOk,
    probeAt := fun _ _ => .http 200 "" "" }

/-- Environment: every probe returns error code 5000 (not yet open). -/
def envClosed : Env :=
  { nowAt := fun _ => 0, refreshAt := fun _ => refreshOk,
    probeAt := fun _ _ => .http 403 "5000" "not open" }

/-- Environment: every probe returns error code 5001 (already
submitted). -/
def envConsumed : Env :=
  { nowAt := fun _ => 0, refreshAt := fun _ => refreshOk,
    probeAt := fun _ _ => .http 403 "5001" "quota spent" }

/-- Environment: the clock is far past expiry and the authority rejects
the refresh. -/
def envRejected : Env :=
  { nowAt := fun _ => 2000000, refreshAt := fun _ => refreshRejected,
    probeAt := fun _ _ => .http 200 "" "" }

/-- Environment for the duplicate-id registry: the first descriptor
probes as not-yet-open, every other index probes as open. -/
def envDupMixed : Env :=
  { nowAt := fun _ => 0, refreshAt := fun _ => refreshOk,
    probeAt := fun _ i => if i = 0 then .http 403 "5000" "not open"
                          else .http 200 "" "" }

/-- A successful device-code poll response. -/
def authRespOk : AuthResp :=
  { status := 200, error := none, error_description := none,
    access_token := "at", refresh_token := "rt", expires_in := some 3600 }

/-! ### Branch equations for the per-tick pass -/

theorem pollFormsAux_nil (probes : Nat → RawResponse) (i : Nat) (notified : Finset String) :
    pollFormsAux probes [] i notified = (notified, []) := rfl

theorem pollFormsAux_cons_mem (probes : Nat → RawResponse) (f : Form) (rest : List Form)
    (i : Nat) (notified : Finset String) (h : f.form_id ∈ notified) :
    pollFormsAux probes (f :: rest) i notified = pollFormsAux probes rest (i + 1) notified := by
  simp [pollFormsAux, h]

theorem pollFormsAux_cons_open (probes : Nat → RawResponse) (f : Form) (rest : List Form)
    (i : Nat) (notified : Finset String) (h : f.form_id ∉ notified)
    (h2 : (_check_form (probes i)).1 = true) :
    pollFormsAux probes (f :: rest) i notified =
      ((pollFormsAux probes rest (i + 1) (insert f.form_id notified)).1,
       Event.probe i true (_check_form (probes i)).2 ::
       Event.notify i (formLabel f) ::
       (pollFormsAux probes rest (i + 1) (insert f.form_id notified)).2) := by
  simp [pollFormsAux, h, h2]

theorem pollFormsAux_cons_consumed (probes : Nat → RawResponse) (f : Form) (rest : List Form)
    (i : Nat) (notified : Finset String) (h : f.form_id ∉ notified)
    (h2 : (_check_form (probes i)).1 = false)
    (h3 : (_check_form (probes i)).2 = "already submitted") :
    pollFormsAux probes (f :: rest) i notified =
      ((pollFormsAux probes rest (i + 1) (insert f.form_id notified)).1,
       Event.probe i false (_check_form (probes i)).2 ::
       (pollFormsAux probes rest (i + 1) (insert f.form_id notified)).2) := by
  simp [pollFormsAux, h, h2, h3]

theorem pollFormsAux_cons_pending (probes : Nat → RawResponse) (f : Form) (rest : List Form)
    (i : Nat) (notified : Finset String) (h : f.form_id ∉ notified)
    (h2 : (_check_form (probes i)).1 = false)
    (h3 : (_check_form (probes i)).2 ≠ "already submitted") :
    pollFormsAux probes (f :: rest) i notified =
      ((pollFormsAux probes rest (i + 1) notified).1,
       Event.probe i false (_check_form (probes i)).2 ::
       (pollFormsAux probes rest (i + 1) notified).2) := by
  simp [pollFormsAux, h, h2, h3]

/-! ### Counting sink invocations -/

theorem notifyCount_append (i : Nat) (a b : List Event) :
    notifyCount i (a ++ b) = notifyCount i a + notifyCount i b := by
  simp [notifyCount, List.filter_append]

theorem notifyCount_eq_zero (i : Nat) (evs : List Event)
    (h : ∀ lbl, Event.notify i lbl ∉ evs) : notifyCount i evs = 0 := by
  simp only [notifyCount, List.length_eq_zero, List.filter_eq_nil_iff]
  intro e he
  cases e with
  | probe j b d => simp [isNotifyFor]
  | notify j lbl =>
    simp only [isNotifyFor, beq_iff_eq]
    intro hj
    exact h lbl (hj ▸ he)

theorem notifyCount_pos (i : Nat) (lbl : String) (evs : List Event)
    (h : Event.notify i lbl ∈ evs) : 1 ≤ notifyCount i evs := by
  have hmem : Event.notify i lbl ∈ evs.filter (isNotifyFor i) := by
    rw [List.mem_filter]
    exact ⟨h, by simp [isNotifyFor]⟩
  have hlen := List.length_pos.mpr (List.ne_nil_of_mem hmem)
  simpa [notifyCount] using hlen

/-! ### Structural facts about one pass over the registry -/

theorem pollFormsAux_sub (probes : Nat → RawResponse) (fs : List Form) (i : Nat)
    (notified : Finset String) :
    notified ⊆ (pollFormsAux probes fs i notified).1 := by
  induction fs generalizing i notified with
  | nil => simp [pollFormsAux_nil]
  | cons f rest ih =>
    by_cases h1 : f.form_id ∈ notified
    · rw [pollFormsAux_cons_mem probes f rest i notified h1]
      exact ih _ _
    · cases h2 : (_check_form (probes i)).1 with
      | true =>
        rw [pollFormsAux_cons_open probes f rest i notified h1 h2]
        exact (Finset.subset_insert _ _).trans (ih _ _)
      | false =>
        by_cases h3 : (_check_form (probes i)).2 = "already submitted"
        · rw [pollFormsAux_cons_consumed probes f rest i notified h1 h2 h3]
          exact (Finset.subset_insert _ _).trans (ih _ _)
        · rw [pollFormsAux_cons_pending probes f rest i notified h1 h2 h3]
          exact ih _ _

theorem pollFormsAux_mem_out (probes : Nat → RawResponse) (fs : List Form) (i : Nat)
    (notified : Finset String) (x : String)
    (hx : x ∈ (pollFormsAux probes fs i notified).1) (hn : x ∉ notified) :
    ∃ m f, fs[m]? = some f ∧ f.form_id = x ∧
      ((_check_form (probes (i + m))).1 = true ∨
       (_check_form (probes (i + m))).2 = "already submitted") := by
  induction fs generalizing i notified with
  | nil =>
    rw [pollFormsAux_nil] at hx
    exact absurd hx hn
  | cons f rest ih =>
    by_cases h1 : f.form_id ∈ notified
    · rw [pollFormsAux_cons_mem probes f rest i notified h1] at hx
      obtain ⟨m, g, hg, hgx, hc⟩ := ih _ _ hx hn
      refine ⟨m + 1, g, by simpa using hg, hgx, ?_⟩
      rw [show i + (m + 1) = i + 1 + m from by omega]
      exact hc
    · cases h2 : (_check_form (probes i)).1 with
      | true =>
        rw [pollFormsAux_cons_open probes f rest i notified h1 h2] at hx
        by_cases hxf : x = f.form_id
        · exact ⟨0, f, by simp, hxf.symm, by simpa using Or.inl h2⟩
        · have hn2 : x ∉ insert f.form_id notified := by
            simp [Finset.mem_insert, hxf, hn]
          obtain ⟨m, g, hg, hgx, hc⟩ := ih _ _ hx hn2
          refine ⟨m + 1, g, by simpa using hg, hgx, ?_⟩
          rw [show i + (m + 1) = i + 1 + m from by omega]
          exact hc
      | false =>
        by_cases h3 : (_check_form (probes i)).2 = "already submitted"
        · rw [pollFormsAux_cons_consumed probes f rest i notified h1 h2 h3] at hx
          by_cases hxf : x = f.form_id
          · exact ⟨0, f, by simp, hxf.symm, by simpa using Or.inr h3⟩
          · have hn2 : x ∉ insert f.form_id notified := by
              simp [Finset.mem_insert, hxf, hn]
            obtain ⟨m, g, hg, hgx, hc⟩ := ih _ _ hx hn2
            refine ⟨m + 1, g, by simpa using hg, hgx, ?_⟩
            rw [show i + (m + 1) = i + 1 + m from by omega]
            exact hc
        · rw [pollFormsAux_cons_pending probes f rest i notified h1 h2 h3] at hx
          obtain ⟨m, g, hg, hgx, hc⟩ := ih _ _ hx hn
          refine ⟨m + 1, g, by simpa using hg, hgx, ?_⟩
          rw [show i + (m + 1) = i + 1 + m from by omega]
          exact hc

theorem pollFormsAux_out_sub (probes : Nat → RawResponse) (fs : List Form) (i : Nat)
    (notified : Finset String) :
    (pollFormsAux probes fs i notified).1 ⊆ notified ∪ fidFinset fs := by
  intro x hx
  by_cases hn : x ∈ notified
  · exact Finset.mem_union_left _ hn
  · obtain ⟨m, f, hf, hfx, _⟩ := pollFormsAux_mem_out probes fs i notified x hx hn
    refine Finset.mem_union_right _ ?_
    rw [fidFinset, List.mem_toFinset]
    refine hfx ▸ List.mem_map_of_mem Form.form_id ?_
    exact List.getElem?_mem hf

theorem pollFormsAux_eventIdx (probes : Nat → RawResponse) (fs : List Form) (i : Nat)
    (notified : Finset String) (e : Event)
    (he : e ∈ (pollFormsAux probes fs i notified).2) :
    ∃ m, m < fs.length ∧ eventIdx e = i + m := by
  induction fs generalizing i notified with
  | nil =>
    rw [pollFormsAux_nil] at he
    simp at he
  | cons f rest ih =>
    by_cases h1 : f.form_id ∈ notified
    · rw [pollFormsAux_cons_mem probes f rest i notified h1] at he
      obtain ⟨m, hm, hidx⟩ := ih _ _ he
      exact ⟨m + 1, by simpa using Nat.succ_lt_succ hm, by omega⟩
    · cases h2 : (_check_form (probes i)).1 with
      | true =>
        rw [pollFormsAux_cons_open probes f rest i notified h1 h2] at he
        simp only [List.mem_cons] at he
        rcases he with he | he | he
        · exact ⟨0, by simp, by simp [he, eventIdx]⟩
        · exact ⟨0, by simp, by simp [he, eventIdx]⟩
        · obtain ⟨m, hm, hidx⟩ := ih _ _ he
          exact ⟨m + 1, by simpa using Nat.succ_lt_succ hm, by omega⟩
      | false =>
        by_cases h3 : (_check_form (probes i)).2 = "already submitted"
        · rw [pollFormsAux_cons_consumed probes f rest i notified h1 h2 h3] at he
          simp only [List.mem_cons] at he
          rcases he with he | he
          · exact ⟨0, by simp, by simp [he, eventIdx]⟩
          · obtain ⟨m, hm, hidx⟩ := ih _ _ he
            exact ⟨m + 1, by simpa using Nat.succ_lt_succ hm, by omega⟩
        · rw [pollFormsAux_cons_pending probes f rest i notified h1 h2 h3] at he
          simp only [List.mem_cons] at he
          rcases he with he | he
          · exact ⟨0, by simp, by simp [he, eventIdx]⟩
          · obtain ⟨m, hm, hidx⟩ := ih _ _ he
            exact ⟨m + 1, by simpa using Nat.succ_lt_succ hm, by omega⟩

theorem pollFormsAux_skip (probes : Nat → RawResponse) (fs : List Form) (i : Nat)
    (notified : Finset String) (m : Nat) (f : Form)
    (hf : fs[m]? = some f) (hmem : f.form_id ∈ notified) :
    ∀ e ∈ (pollFormsAux probes fs i notified).2, eventIdx e ≠ i + m := by
  induction fs generalizing i notified m with
  | nil => simp at hf
  | cons g rest ih =>
    intro e he
    cases m with
    | zero =>
      rw [List.getElem?_cons_zero, Option.some_inj] at hf
      subst hf
      rw [pollFormsAux_cons_mem probes g rest i notified hmem] at he
      obtain ⟨m2, _, hidx⟩ := pollFormsAux_eventIdx probes rest (i + 1) notified e he
      omega
    | succ m2 =>
      rw [List.getElem?_cons_succ] at hf
      by_cases h1 : g.form_id ∈ notified
      · rw [pollFormsAux_cons_mem probes g rest i notified h1] at he
        have := ih (i + 1) notified m2 hf hmem e he
        omega
      · cases h2 : (_check_form (probes i)).1 with
        | true =>
          rw [pollFormsAux_cons_open probes g rest i notified h1 h2] at he
          simp only [List.mem_cons] at he
          rcases he with he | he | he
          · subst he; simp [eventIdx]
          · subst he; simp [eventIdx]
          · have := ih (i + 1) (insert g.form_id notified) m2 hf
              (Finset.mem_insert_of_mem hmem) e he
            omega
        | false =>
          by_cases h3 : (_check_form (probes i)).2 = "already submitted"
          · rw [pollFormsAux_cons_consumed probes g rest i notified h1 h2 h3] at he
            simp only [List.mem_cons] at he
            rcases he with he | he
            · subst he; simp [eventIdx]
            · have := ih (i + 1) (insert g.form_id notified) m2 hf
                (Finset.mem_insert_of_mem hmem) e he
              omega
          · rw [pollFormsAux_cons_pending probes g rest i notified h1 h2 h3] at he
            simp only [List.mem_cons] at he
            rcases he with he | he
            · subst he; simp [eventIdx]
            · have := ih (i + 1) notified m2 hf hmem e he
              omega

theorem pollFormsAux_probe_not_mem (probes : Nat → RawResponse) (fs : List Form) (i : Nat)
    (notified : Finset String) (j : Nat) (b : Bool) (d : String)
    (he : Event.probe j b d ∈ (pollFormsAux probes fs i notified).2) :
    ∃ m f, j = i + m ∧ fs[m]? = some f ∧ f.form_id ∉ notified := by
  induction fs generalizing i notified with
  | nil => rw [pollFormsAux_nil] at he; simp at he
  | cons g rest ih =>
    by_cases h1 : g.form_id ∈ notified
    · rw [pollFormsAux_cons_mem probes g rest i notified h1] at he
      obtain ⟨m, f, hj, hf, hn⟩ := ih (i + 1) notified he
      exact ⟨m + 1, f, by omega, by simpa using hf, hn⟩
    · cases h2 : (_check_form (probes i)).1 with
      | true =>
        rw [pollFormsAux_cons_open probes g rest i notified h1 h2] at he
        simp only [List.mem_cons] at he
        rcases he with he | he | he
        · obtain ⟨hj, _, _⟩ := Event.probe.inj he
          exact ⟨0, g, by omega, by simp, h1⟩
        · exact absurd he (by simp)
        · obtain ⟨m, f, hj, hf, hn⟩ := ih (i + 1) (insert g.form_id notified) he
          exact ⟨m + 1, f, by omega, by simpa using hf,
            fun hc => hn (Finset.mem_insert_of_mem hc)⟩
      | false =>
        by_cases h3 : (_check_form (probes i)).2 = "already submitted"
        · rw [pollFormsAux_cons_consumed probes g rest i notified h1 h2 h3] at he
          simp only [List.mem_cons] at he
          rcases he with he | he
          · obtain ⟨hj, _, _⟩ := Event.probe.inj he
            exact ⟨0, g, by omega, by simp, h1⟩
          · obtain ⟨m, f, hj, hf, hn⟩ := ih (i + 1) (insert g.form_id notified) he
            exact ⟨m + 1, f, by omega, by simpa using hf,
              fun hc => hn (Finset.mem_insert_of_mem hc)⟩
        · rw [pollFormsAux_cons_pending probes g rest i notified h1 h2 h3] at he
          simp only [List.mem_cons] at he
          rcases he with he | he
          · obtain ⟨hj, _, _⟩ := Event.probe.inj he
            exact ⟨0, g, by omega, by simp, h1⟩
          · obtain ⟨m, f, hj, hf, hn⟩ := ih (i + 1) notified he
            exact ⟨m + 1, f, by omega, by simpa using hf, hn⟩

theorem pollFormsAux_probe_resolves (probes : Nat → RawResponse) (fs : List Form) (i : Nat)
    (notified : Finset String) (j : Nat) (b : Bool) (d : String)
    (he : Event.probe j b d ∈ (pollFormsAux probes fs i notified).2)
    (hres : b = true ∨ d = "already submitted") :
    ∃ m f, j = i + m ∧ fs[m]? = some f ∧
      f.form_id ∈ (pollFormsAux probes fs i notified).1 := by
  induction fs generalizing i notified with
  | nil => rw [pollFormsAux_nil] at he; simp at he
  | cons g rest ih =>
    by_cases h1 : g.form_id ∈ notified
    · rw [pollFormsAux_cons_mem probes g rest i notified h1] at he
      rw [pollFormsAux_cons_mem probes g rest i notified h1]
      obtain ⟨m, f, hj, hf, hmem⟩ := ih (i + 1) notified he
      exact ⟨m + 1, f, by omega, by simpa using hf, hmem⟩
    · cases h2 : (_check_form (probes i)).1 with
      | true =>
        rw [pollFormsAux_cons_open probes g rest i notified h1 h2] at he ⊢
        simp only [List.mem_cons] at he
        rcases he with he | he | he
        · obtain ⟨hj, _, _⟩ := Event.probe.inj he
          refine ⟨0, g, by omega, by simp, ?_⟩
          exact pollFormsAux_sub probes rest (i + 1) _ (Finset.mem_insert_self _ _)
        · exact absurd he (by simp)
        · obtain ⟨m, f, hj, hf, hmem⟩ := ih (i + 1) (insert g.form_id notified) he
          exact ⟨m + 1, f, by omega, by simpa using hf, hmem⟩
      | false =>
        by_cases h3 : (_check_form (probes i)).2 = "already submitted"
        · rw [pollFormsAux_cons_consumed probes g rest i notified h1 h2 h3] at he ⊢
          simp only [List.mem_cons] at he
          rcases he with he | he
          · obtain ⟨hj, _, _⟩ := Event.probe.inj he
            refine ⟨0, g, by omega, by simp, ?_⟩
            exact pollFormsAux_sub probes rest (i + 1) _ (Finset.mem_insert_self _ _)
          · obtain ⟨m, f, hj, hf, hmem⟩ := ih (i + 1) (insert g.form_id notified) he
            exact ⟨m + 1, f, by omega, by simpa using hf, hmem⟩
        · rw [pollFormsAux_cons_pending probes g rest i notified h1 h2 h3] at he ⊢
          simp only [List.mem_cons] at he
          rcases he with he | he
          · obtain ⟨_, hb, hd⟩ := Event.probe.inj he
            rcases hres with hb2 | hd2
            · exact absurd (hb ▸ hb2) (by simp)
            · exact absurd (hd ▸ hd2) h3
          · obtain ⟨m, f, hj, hf, hmem⟩ := ih (i + 1) notified he
            exact ⟨m + 1, f, by omega, by simpa using hf, hmem⟩

theorem pollFormsAux_probe_of_pending (probes : Nat → RawResponse) (fs : List Form)
    (i : Nat) (notified : Finset String) (m : Nat) (f : Form)
    (hf : fs[m]? = some f) (hn : f.form_id ∉ notified)
    (hfirst : ∀ m2 g, m2 < m → fs[m2]? = some g → g.form_id ≠ f.form_id) :
    Event.probe (i + m) ((_check_form (probes (i + m))).1)
        ((_check_form (probes (i + m))).2)
      ∈ (pollFormsAux probes fs i notified).2 := by
  induction fs generalizing i notified m with
  | nil => simp at hf
  | cons g rest ih =>
    cases m with
    | zero =>
      rw [List.getElem?_cons_zero, Option.some_inj] at hf
      subst hf
      cases h2 : (_check_form (probes i)).1 with
      | true =>
        rw [pollFormsAux_cons_open probes g rest i notified hn h2]
        rw [show i + 0 = i from rfl, h2]
        exact List.mem_cons_self _ _
      | false =>
        by_cases h3 : (_check_form (probes i)).2 = "already submitted"
        · rw [pollFormsAux_cons_consumed probes g rest i notified hn h2 h3]
          rw [show i + 0 = i from rfl, h2]
          exact List.mem_cons_self _ _
        · rw [pollFormsAux_cons_pending probes g rest i notified hn h2 h3]
          rw [show i + 0 = i from rfl, h2]
          exact List.mem_cons_self _ _
    | succ m2 =>
      rw [List.getElem?_cons_succ] at hf
      have hne : g.form_id ≠ f.form_id := hfirst 0 g (by omega) (by simp)
      have hfirst2 : ∀ m3 g2, m3 < m2 → rest[m3]? = some g2 →
          g2.form_id ≠ f.form_id := by
        intro m3 g2 hlt hg2
        exact hfirst (m3 + 1) g2 (by omega) (by simpa using hg2)
      have harith : i + (m2 + 1) = i + 1 + m2 := by omega
      by_cases h1 : g.form_id ∈ notified
      · rw [pollFormsAux_cons_mem probes g rest i notified h1, harith]
        exact ih (i + 1) notified m2 hf hn hfirst2
      · cases h2 : (_check_form (probes i)).1 with
        | true =>
          rw [pollFormsAux_cons_open probes g rest i notified h1 h2, harith]
          have hn2 : f.form_id ∉ insert g.form_id notified := by
            rw [Finset.mem_insert]
            rintro (h | h)
            · exact hne h.symm
            · exact hn h
          exact List.mem_cons_of_mem _ (List.mem_cons_of_mem _
            (ih (i + 1) (insert g.form_id notified) m2 hf hn2 hfirst2))
        | false =>
          by_cases h3 : (_check_form (probes i)).2 = "already submitted"
          · rw [pollFormsAux_cons_consumed probes g rest i notified h1 h2 h3, harith]
            have hn2 : f.form_id ∉ insert g.form_id notified := by
              rw [Finset.mem_insert]
              rintro (h | h)
              · exact hne h.symm
              · exact hn h
            exact List.mem_cons_of_mem _
              (ih (i + 1) (insert g.form_id notified) m2 hf hn2 hfirst2)
          · rw [pollFormsAux_cons_pending probes g rest i notified h1 h2 h3, harith]
            exact List.mem_cons_of_mem _ (ih (i + 1) notified m2 hf hn hfirst2)

theorem pollFormsAux_notify_of_open (probes : Nat → RawResponse) (fs : List Form)
    (i : Nat) (notified : Finset String) (j : Nat) (d : String)
    (he : Event.probe j true d ∈ (pollFormsAux probes fs i notified).2) :
    ∃ lbl, Event.notify j lbl ∈ (pollFormsAux probes fs i notified).2 := by
  induction fs generalizing i notified with
  | nil => rw [pollFormsAux_nil] at he; simp at he
  | cons g rest ih =>
    by_cases h1 : g.form_id ∈ notified
    · rw [pollFormsAux_cons_mem probes g rest i notified h1] at he ⊢
      exact ih (i + 1) notified he
    · cases h2 : (_check_form (probes i)).1 with
      | true =>
        rw [pollFormsAux_cons_open probes g rest i notified h1 h2] at he ⊢
        simp only [List.mem_cons] at he
        rcases he with he | he | he
        · obtain ⟨hj, _, _⟩ := Event.probe.inj he
          refine ⟨formLabel g, ?_⟩
          rw [hj]
          exact List.mem_cons_of_mem _ (List.mem_cons_self _ _)
        · exact absurd he (by simp)
        · obtain ⟨lbl, hl⟩ := ih (i + 1) (insert g.form_id notified) he
          exact ⟨lbl, List.mem_cons_of_mem _ (List.mem_cons_of_mem _ hl)⟩
      | false =>
        by_cases h3 : (_check_form (probes i)).2 = "already submitted"
        · rw [pollFormsAux_cons_consumed probes g rest i notified h1 h2 h3] at he ⊢
          simp only [List.mem_cons] at he
          rcases he with he | he
          · exact absurd he (by simp)
          · obtain ⟨lbl, hl⟩ := ih (i + 1) (insert g.form_id notified) he
            exact ⟨lbl, List.mem_cons_of_mem _ hl⟩
        · rw [pollFormsAux_cons_pending probes g rest i notified h1 h2 h3] at he ⊢
          simp only [List.mem_cons] at he
          rcases he with he | he
          · exact absurd he (by simp)
          · obtain ⟨lbl, hl⟩ := ih (i + 1) notified he
            exact ⟨lbl, List.mem_cons_of_mem _ hl⟩

theorem pollFormsAux_notify_mem (probes : Nat → RawResponse) (fs : List Form)
    (i : Nat) (notified : Finset String) (j : Nat) (lbl : String)
    (he : Event.notify j lbl ∈ (pollFormsAux probes fs i notified).2) :
    ∃ m f, j = i + m ∧ fs[m]? = some f ∧ f.form_id ∉ notified ∧
      f.form_id ∈ (pollFormsAux probes fs i notified).1 ∧ lbl = formLabel f := by
  induction fs generalizing i notified with
  | nil => rw [pollFormsAux_nil] at he; simp at he
  | cons g rest ih =>
    by_cases h1 : g.form_id ∈ notified
    · rw [pollFormsAux_cons_mem probes g rest i notified h1] at he ⊢
      obtain ⟨m, f, hj, hf, hn, hmem, hl⟩ := ih (i + 1) notified he
      exact ⟨m + 1, f, by omega, by simpa using hf, hn, hmem, hl⟩
    · cases h2 : (_check_form (probes i)).1 with
      | true =>
        rw [pollFormsAux_cons_open probes g rest i notified h1 h2] at he ⊢
        simp only [List.mem_cons] at he
        rcases he with he | he | he
        · exact absurd he (by simp)
        · obtain ⟨hj, hl⟩ := Event.notify.inj he
          refine ⟨0, g, by omega, by simp, h1, ?_, hl⟩
          exact pollFormsAux_sub probes rest (i + 1) _ (Finset.mem_insert_self _ _)
        · obtain ⟨m, f, hj, hf, hn, hmem, hl⟩ := ih (i + 1) (insert g.form_id notified) he
          exact ⟨m + 1, f, by omega, by simpa using hf,
            fun hc => hn (Finset.mem_insert_of_mem hc), hmem, hl⟩
      | false =>
        by_cases h3 : (_check_form (probes i)).2 = "already submitted"
        · rw [pollFormsAux_cons_consumed probes g rest i notified h1 h2 h3] at he ⊢
          simp only [List.mem_cons] at he
          rcases he with he | he
          · exact absurd he (by simp)
          · obtain ⟨m, f, hj, hf, hn, hmem, hl⟩ := ih (i + 1) (insert g.form_id notified) he
            exact ⟨m + 1, f, by omega, by simpa using hf,
              fun hc => hn (Finset.mem_insert_of_mem hc), hmem, hl⟩
        · rw [pollFormsAux_cons_pending probes g rest i notified h1 h2 h3] at he ⊢
          simp only [List.mem_cons] at he
          rcases he with he | he
          · exact absurd he (by simp)
          · obtain ⟨m, f, hj, hf, hn, hmem, hl⟩ := ih (i + 1) notified he
            exact ⟨m + 1, f, by omega, by simpa using hf, hn, hmem, hl⟩

theorem notifyCount_cons (i : Nat) (e : Event) (l : List Event) :
    notifyCount i (e :: l) = (if isNotifyFor i e then 1 else 0) + notifyCount i l := by
  simp only [notifyCount, List.filter_cons]
  split
  · simp [Nat.add_comm]
  · simp

theorem notifyCount_zero_of_idx_gt (i : Nat) (evs : List Event)
    (h : ∀ e ∈ evs, i < eventIdx e) : notifyCount i evs = 0 := by
  refine notifyCount_eq_zero i evs ?_
  intro lbl hmem
  have h2 := h _ hmem
  simp [eventIdx] at h2

theorem pollFormsAux_count_le_one (probes : Nat → RawResponse) (fs : List Form)
    (i : Nat) (notified : Finset String) (j : Nat) :
    notifyCount j (pollFormsAux probes fs i notified).2 ≤ 1 := by
  induction fs generalizing i notified with
  | nil => simp [pollFormsAux_nil, notifyCount]
  | cons g rest ih =>
    have htail : ∀ notified2 : Finset String,
        notifyCount i (pollFormsAux probes rest (i + 1) notified2).2 = 0 := by
      intro notified2
      refine notifyCount_zero_of_idx_gt i _ ?_
      intro e he
      obtain ⟨m, _, hidx⟩ := pollFormsAux_eventIdx probes rest (i + 1) notified2 e he
      omega
    by_cases h1 : g.form_id ∈ notified
    · rw [pollFormsAux_cons_mem probes g rest i notified h1]
      exact ih _ _
    · cases h2 : (_check_form (probes i)).1 with
      | true =>
        rw [pollFormsAux_cons_open probes g rest i notified h1 h2]
        show notifyCount j (Event.probe i true (_check_form (probes i)).2 ::
            Event.notify i (formLabel g) ::
            (pollFormsAux probes rest (i + 1) (insert g.form_id notified)).2) ≤ 1
        rw [notifyCount_cons, notifyCount_cons]
        by_cases hj : j = i
        · subst hj
          rw [htail (insert g.form_id notified)]
          simp [isNotifyFor]
        · have hge : isNotifyFor j (Event.notify i (formLabel g)) = false := by
            simp [isNotifyFor]
            omega
          rw [hge]
          simpa [isNotifyFor] using ih (i + 1) (insert g.form_id notified)
      | false =>
        by_cases h3 : (_check_form (probes i)).2 = "already submitted"
        · rw [pollFormsAux_cons_consumed probes g rest i notified h1 h2 h3]
          show notifyCount j (Event.probe i false (_check_form (probes i)).2 ::
              (pollFormsAux probes rest (i + 1) (insert g.form_id notified)).2) ≤ 1
          rw [notifyCount_cons]
          simpa [isNotifyFor] using ih (i + 1) (insert g.form_id notified)
        · rw [pollFormsAux_cons_pending probes g rest i notified h1 h2 h3]
          show notifyCount j (Event.probe i false (_check_form (probes i)).2 ::
              (pollFormsAux probes rest (i + 1) notified).2) ≤ 1
          rw [notifyCount_cons]
          simpa [isNotifyFor] using ih (i + 1) notified

theorem pollFormsAux_closed_no_notify (probes : Nat → RawResponse) (fs : List Form)
    (i : Nat) (notified : Finset String) (j : Nat) (d : String)
    (he : Event.probe j false d ∈ (pollFormsAux probes fs i notified).2) :
    ∀ lbl, Event.notify j lbl ∉ (pollFormsAux probes fs i notified).2 := by
  induction fs generalizing i notified with
  | nil => rw [pollFormsAux_nil] at he; simp at he
  | cons g rest ih =>
    intro lbl hn
    by_cases h1 : g.form_id ∈ notified
    · rw [pollFormsAux_cons_mem probes g rest i notified h1] at he hn
      exact ih (i + 1) notified he lbl hn
    · cases h2 : (_check_form (probes i)).1 with
      | true =>
        rw [pollFormsAux_cons_open probes g rest i notified h1 h2] at he hn
        simp only [List.mem_cons] at he hn
        rcases he with he | he | he
        · simp at he
        · simp at he
        · rcases hn with hn | hn | hn
          · simp at hn
          · obtain ⟨hj, _⟩ := Event.notify.inj hn
            obtain ⟨m, _, hidx⟩ :=
              pollFormsAux_eventIdx probes rest (i + 1) (insert g.form_id notified) _ he
            simp [eventIdx] at hidx
            omega
          · exact ih (i + 1) (insert g.form_id notified) he lbl hn
      | false =>
        by_cases h3 : (_check_form (probes i)).2 = "already submitted"
        · rw [pollFormsAux_cons_consumed probes g rest i notified h1 h2 h3] at he hn
          simp only [List.mem_cons] at he hn
          rcases hn with hn | hn
          · simp at hn
          · rcases he with he | he
            · obtain ⟨hj, _, _⟩ := Event.probe.inj he
              obtain ⟨m, _, hidx⟩ :=
                pollFormsAux_eventIdx probes rest (i + 1) (insert g.form_id notified) _ hn
              simp [eventIdx] at hidx
              omega
            · exact ih (i + 1) (insert g.form_id notified) he lbl hn
        · rw [pollFormsAux_cons_pending probes g rest i notified h1 h2 h3] at he hn
          simp only [List.mem_cons] at he hn
          rcases hn with hn | hn
          · simp at hn
          · rcases he with he | he
            · obtain ⟨hj, _, _⟩ := Event.probe.inj he
              obtain ⟨m, _, hidx⟩ :=
                pollFormsAux_eventIdx probes rest (i + 1) notified _ hn
              simp [eventIdx] at hidx
              omega
            · exact ih (i + 1) notified he lbl hn

/-! ### Facts about the tick-level state machine -/

theorem stateAt_succ (forms : List Form) (env : Env) (init : PollState) (k : Nat) :
    stateAt forms env init (k + 1) = stepTick forms env k (stateAt forms env init k) := rfl

theorem stepTick_done (forms : List Form) (env : Env) (k : Nat) :
    stepTick forms env k .done = .done := rfl

theorem stepTick_fatal (forms : List Form) (env : Env) (k : Nat) (m : String) :
    stepTick forms env k (.fatal m) = .fatal m := rfl

theorem stepTick_running_err (forms : List Form) (env : Env) (k : Nat) (t : TokenSet)
    (n : Finset String) (m : String)
    (herr : _ensure_fresh (env.nowAt k) t (env.refreshAt k) = .error m) :
    stepTick forms env k (.running t n) = .fatal m := by
  simp [stepTick, herr]

theorem stepTick_running_ok (forms : List Form) (env : Env) (k : Nat) (t : TokenSet)
    (n : Finset String) (t2 : TokenSet)
    (hok : _ensure_fresh (env.nowAt k) t (env.refreshAt k) = .ok t2) :
    stepTick forms env k (.running t n) =
      if ((forms.length : Int) - (((pollFormsAux (env.probeAt k) forms 0 n).1.card : Int))) = 0
      then .done
      else .running t2 (pollFormsAux (env.probeAt k) forms 0 n).1 := by
  simp [stepTick, hok]

theorem tickEvents_running_ok (forms : List Form) (env : Env) (k : Nat) (t : TokenSet)
    (n : Finset String) (t2 : TokenSet)
    (hok : _ensure_fresh (env.nowAt k) t (env.refreshAt k) = .ok t2) :
    tickEvents forms env k (.running t n) = (pollFormsAux (env.probeAt k) forms 0 n).2 := by
  simp [tickEvents, hok]

theorem tickEvents_running_err (forms : List Form) (env : Env) (k : Nat) (t : TokenSet)
    (n : Finset String) (m : String)
    (herr : _ensure_fresh (env.nowAt k) t (env.refreshAt k) = .error m) :
    tickEvents forms env k (.running t n) = [] := by
  simp [tickEvents, herr]

theorem tickEvents_done (forms : List Form) (env : Env) (k : Nat) :
    tickEvents forms env k .done = [] := rfl

theorem tickEvents_fatal (forms : List Form) (env : Env) (k : Nat) (m : String) :
    tickEvents forms env k (.fatal m) = [] := rfl

theorem traceUpTo_succ (forms : List Form) (env : Env) (init : PollState) (N : Nat) :
    traceUpTo forms env init (N + 1) =
      traceUpTo forms env init N ++ tickEvents forms env N (stateAt forms env init N) := rfl

theorem stateAt_done_le (forms : List Form) (env : Env) (init : PollState) (k k2 : Nat)
    (hk : k ≤ k2) (h : stateAt forms env init k = .done) :
    stateAt forms env init k2 = .done := by
  induction k2 with
  | zero =>
    have hz : k = 0 := by omega
    subst hz
    exact h
  | succ m ih =>
    by_cases hkm : k = m + 1
    · subst hkm
      exact h
    · have h2 := ih (by omega)
      rw [stateAt_succ, h2, stepTick_done]

theorem stateAt_fatal_le (forms : List Form) (env : Env) (init : PollState) (k k2 : Nat)
    (m : String) (hk : k ≤ k2) (h : stateAt forms env init k = .fatal m) :
    stateAt forms env init k2 = .fatal m := by
  induction k2 with
  | zero =>
    have hz : k = 0 := by omega
    subst hz
    exact h
  | succ m2 ih =>
    by_cases hkm : k = m2 + 1
    · subst hkm
      exact h
    · have h2 := ih (by omega)
      rw [stateAt_succ, h2, stepTick_fatal]

theorem stateAt_running_pred (forms : List Form) (env : Env) (init : PollState) (k : Nat)
    (t : TokenSet) (n : Finset String)
    (h : stateAt forms env init (k + 1) = .running t n) :
    ∃ t2 n2, stateAt forms env init k = .running t2 n2 := by
  rw [stateAt_succ] at h
  cases hs : stateAt forms env init k with
  | running t2 n2 => exact ⟨t2, n2, rfl⟩
  | done =>
    rw [hs, stepTick_done] at h
    exact absurd h (by simp)
  | fatal m =>
    rw [hs, stepTick_fatal] at h
    exact absurd h (by simp)

theorem stateAt_running_add (forms : List Form) (env : Env) (init : PollState) (k m : Nat)
    (t : TokenSet) (n : Finset String)
    (h : stateAt forms env init (k + m) = .running t n) :
    ∃ t2 n2, stateAt forms env init k = .running t2 n2 := by
  induction m generalizing t n with
  | zero => exact ⟨t, n, h⟩
  | succ m2 ih =>
    obtain ⟨t2, n2, h2⟩ := stateAt_running_pred forms env init (k + m2) t n h
    exact ih t2 n2 h2

theorem stateAt_running_le (forms : List Form) (env : Env) (init : PollState) (k k2 : Nat)
    (t : TokenSet) (n : Finset String) (hk : k ≤ k2)
    (h : stateAt forms env init k2 = .running t n) :
    ∃ t2 n2, stateAt forms env init k = .running t2 n2 := by
  have h2 : stateAt forms env init (k + (k2 - k)) = .running t n := by
    rw [show k + (k2 - k) = k2 from by omega]
    exact h
  exact stateAt_running_add forms env init k (k2 - k) t n h2

theorem step_notified (forms : List Form) (env : Env) (init : PollState) (k : Nat)
    (t : TokenSet) (n : Finset String) (t2 : TokenSet) (n2 : Finset String)
    (h : stateAt forms env init k = .running t n)
    (h2 : stateAt forms env init (k + 1) = .running t2 n2) :
    n2 = (pollFormsAux (env.probeAt k) forms 0 n).1 ∧ n ⊆ n2 := by
  rw [stateAt_succ, h] at h2
  cases hok : _ensure_fresh (env.nowAt k) t (env.refreshAt k) with
  | error m =>
    rw [stepTick_running_err forms env k t n m hok] at h2
    exact absurd h2 (by simp)
  | ok t3 =>
    rw [stepTick_running_ok forms env k t n t3 hok] at h2
    by_cases hc : ((forms.length : Int) -
        (((pollFormsAux (env.probeAt k) forms 0 n).1.card : Int))) = 0
    · rw [if_pos hc] at h2
      exact absurd h2 (by simp)
    · rw [if_neg hc] at h2
      obtain ⟨_, hn⟩ := PollState.running.inj h2
      refine ⟨hn.symm, ?_⟩
      rw [← hn]
      exact pollFormsAux_sub (env.probeAt k) forms 0 n

theorem notified_mono_add (forms : List Form) (env : Env) (init : PollState) (k m : Nat)
    (t : TokenSet) (n : Finset String) (t2 : TokenSet) (n2 : Finset String)
    (h : stateAt forms env init k = .running t n)
    (h2 : stateAt forms env init (k + m) = .running t2 n2) : n ⊆ n2 := by
  induction m generalizing t2 n2 with
  | zero =>
    simp only [Nat.add_zero] at h2
    rw [h] at h2
    obtain ⟨_, hn⟩ := PollState.running.inj h2
    rw [← hn]
  | succ m2 ih =>
    obtain ⟨t3, n3, h3⟩ := stateAt_running_pred forms env init (k + m2) t2 n2 h2
    have hsub : n ⊆ n3 := ih t3 n3 h3
    obtain ⟨_, hsub2⟩ := step_notified forms env init (k + m2) t3 n3 t2 n2 h3 h2
    exact hsub.trans hsub2

theorem notified_mono (forms : List Form) (env : Env) (init : PollState) (k k2 : Nat)
    (t : TokenSet) (n : Finset String) (t2 : TokenSet) (n2 : Finset String) (hk : k ≤ k2)
    (h : stateAt forms env init k = .running t n)
    (h2 : stateAt forms env init k2 = .running t2 n2) : n ⊆ n2 := by
  have h3 : stateAt forms env init (k + (k2 - k)) = .running t2 n2 := by
    rw [show k + (k2 - k) = k2 from by omega]
    exact h2
  exact notified_mono_add forms env init k (k2 - k) t n t2 n2 h h3

theorem stateAt_inv (forms : List Form) (env : Env) (t0 : TokenSet) (k : Nat)
    (t : TokenSet) (n : Finset String)
    (h : stateAt forms env (.running t0 ∅) k = .running t n) :
    n ⊆ fidFinset forms := by
  induction k generalizing t n with
  | zero =>
    obtain ⟨_, hn⟩ := PollState.running.inj h
    rw [← hn]
    exact Finset.empty_subset _
  | succ m ih =>
    obtain ⟨t2, n2, h2⟩ := stateAt_running_pred forms env _ m t n h
    have hin := ih t2 n2 h2
    obtain ⟨heq, _⟩ := step_notified forms env _ m t2 n2 t n h2 h
    rw [heq]
    intro x hx
    rcases Finset.mem_union.mp (pollFormsAux_out_sub (env.probeAt m) forms 0 n2 hx)
      with hx2 | hx2
    · exact hin hx2
    · exact hx2

theorem tickEvents_elim (forms : List Form) (env : Env) (k : Nat) (s : PollState) (e : Event)
    (he : e ∈ tickEvents forms env k s) :
    ∃ t n t2, s = .running t n ∧
      _ensure_fresh (env.nowAt k) t (env.refreshAt k) = .ok t2 ∧
      e ∈ (pollFormsAux (env.probeAt k) forms 0 n).2 := by
  cases s with
  | running t n =>
    cases hok : _ensure_fresh (env.nowAt k) t (env.refreshAt k) with
    | error m => simp [tickEvents, hok] at he
    | ok t2 =>
      refine ⟨t, n, t2, rfl, hok, ?_⟩
      simpa [tickEvents, hok] using he
  | done => simp [tickEvents] at he
  | fatal m => simp [tickEvents] at he

/-! ### Claim theorems -/

/-- C3 counterexample: at the exact boundary time
`now = obtained_at + expires_in - 300` the claimed condition
`now < obtained_at + expires_in - 300` is false, so per the claim the
token should be exchanged; yet `_ensure_fresh` returns its input
unchanged, even when the authority would reject the exchange. -/
theorem c3_counterexample :
    _ensure_fresh 0 tokBoundary refreshRejected = .ok tokBoundary ∧
    ¬ ((0 : Int) <
        tokBoundary.obtained_at.getD 0 + tokBoundary.expires_in.getD 0 - 300) := by
  exact ⟨rfl, by decide⟩

/-- C3 amended: `_ensure_fresh` returns its input unchanged (for every
possible authority response, i.e. without contacting the authority) iff
`now ≤ obtained_at + expires_in - 300`; when that fails it exchanges the
refresh token: a 200 response yields the new token set stamped with
`obtained_at = now`, a non-200 response is the fatal refresh failure. -/
theorem c3_ensure_fresh_amended (now : Int) (t : TokenSet) :
    ((∀ r, _ensure_fresh now t r = .ok t) ↔
      now ≤ t.obtained_at.getD 0 + t.expires_in.getD 0 - 300) ∧
    (∀ r : RefreshResp, r.status = 200 →
      ¬ now ≤ t.obtained_at.getD 0 + t.expires_in.getD 0 - 300 →
      _ensure_fresh now t r =
        .ok { access_token := r.access_token, refresh_token := r.refresh_token,
              expires_in := r.expires_in, obtained_at := some now,
              tenant := some (t.tenant.getD "common") }) ∧
    (∀ r : RefreshResp, r.status ≠ 200 →
      ¬ now ≤ t.obtained_at.getD 0 + t.expires_in.getD 0 - 300 →
      _ensure_fresh now t r =
        .error (refreshFailMsg (r.error_description.getD r.text))) := by
  refine ⟨⟨?_, ?_⟩, ?_, ?_⟩
  · intro hall
    by_contra hgt
    push_neg at hgt
    have h1 := hall refreshRejected
    simp only [_ensure_fresh] at h1
    rw [if_pos hgt] at h1
    simp [_refresh_tokens, refreshRejected] at h1
  · intro hle r
    simp only [_ensure_fresh]
    rw [if_neg (by omega)]
  · intro r h200 hgt
    push_neg at hgt
    simp only [_ensure_fresh]
    rw [if_pos hgt]
    simp [_refresh_tokens, h200]
  · intro r h200 hgt
    push_neg at hgt
    simp only [_ensure_fresh]
    rw [if_pos hgt]
    simp [_refresh_tokens, h200]

/-- C3 amended, witness: a stale token with a rejected exchange fails
with the refresh failure. -/
theorem c3_ensure_fresh_amended_witness :
    _ensure_fresh 2000000 tokFresh refreshRejected =
      .error (refreshFailMsg "invalid_grant") :=
  (c3_ensure_fresh_amended 2000000 tokFresh).2.2 refreshRejected (by decide) (by decide)

/-- C6: the truncating write of `_save_tokens` makes the empty file
observable between the `open(TOKEN_FILE, "w")` and the completion of
`json.dump`; the empty contents are neither the old nor the new token
set, so a load during an interrupted save can observe a state that is
not all-or-nothing. -/
theorem c6_save_tokens_not_atomic :
    some "" ∈ _save_tokens_states (some "tokens-v1") "tokens-v2" ∧
    some "" ≠ (some "tokens-v1" : Option String) ∧
    some "" ≠ (some "tokens-v2" : Option String) := by
  refine ⟨?_, ?_, ?_⟩ <;> decide

/-- C7: classification of every device-code poll response inside the
loop of `_device_code_auth`: a 200 response terminates the loop with a
token set whose `obtained_at` is the current time; an
`authorization_pending` error continues polling with the same fixed
interval; an `expired_token` error is the expired-challenge failure
(the flow must be restarted); any other error is fatal with no retry. -/
theorem c7_device_code_auth_classification (tenant : String) (interval : Int)
    (nowAt : Nat → Int) (resps : Nat → AuthResp) (k fuel : Nat) :
    ((resps k).status = 200 →
      _device_code_auth tenant interval nowAt resps k (fuel + 1) =
        .authenticated { access_token := (resps k).access_token,
                         refresh_token := (resps k).refresh_token,
                         expires_in := (resps k).expires_in,
                         obtained_at := some (nowAt k),
                         tenant := some tenant }) ∧
    ((resps k).status ≠ 200 → (resps k).error = some "authorization_pending" →
      _device_code_auth tenant interval nowAt resps k (fuel + 1) =
        _device_code_auth tenant interval nowAt resps (k + 1) fuel) ∧
    ((resps k).status ≠ 200 → (resps k).error = some "expired_token" →
      _device_code_auth tenant interval nowAt resps k (fuel + 1) =
        .codeExpired "Code expired. Try again.") ∧
    ((resps k).status ≠ 200 → (resps k).error ≠ some "authorization_pending" →
      (resps k).error ≠ some "expired_token" →
      _device_code_auth tenant interval nowAt resps k (fuel + 1) =
        .authFailed ("Error: " ++ ((resps k).error_description.getD "None"))) := by
  refine ⟨?_, ?_, ?_, ?_⟩
  · intro h200
    simp [_device_code_auth, authClassify, h200]
  · intro h200 herr
    simp [_device_code_auth, authClassify, h200, herr]
  · intro h200 herr
    simp [_device_code_auth, authClassify, h200, herr]
  · intro h200 hp hx
    simp [_device_code_auth, authClassify, h200, hp, hx]

/-- C7 witness: a 200 response on the first poll returns the issued
token set stamped with the current time. -/
theorem c7_device_code_auth_classification_witness :
    _device_code_auth "common" 5 (fun _ => 100) (fun _ => authRespOk) 0 1 =
      .authenticated { access_token := "at", refresh_token := "rt",
                       expires_in := some 3600, obtained_at := some 100,
                       tenant := some "common" } :=
  (c7_device_code_auth_classification "common" 5 (fun _ => 100)
    (fun _ => authRespOk) 0 0).1 rfl

/-- C10: `_check_form` is total over every raw probe outcome, mapping
the timeout exception and every other exception (including
response-parsing failures) to a not-open result that carries a
diagnostic string; consequently a tick whose refresh succeeded can never
abort the run, whatever the probes do. -/
theorem c10_check_form_total :
    (_check_form RawResponse.timeoutExc = (false, "timeout")) ∧
    (∀ m, _check_form (RawResponse.otherExc m) = (false, "error: " ++ m)) ∧
    (∀ (forms : List Form) (env : Env) (k : Nat) (t : TokenSet) (n : Finset String)
        (t2 : TokenSet),
      _ensure_fresh (env.nowAt k) t (env.refreshAt k) = .ok t2 →
      ∀ m, stepTick forms env k (.running t n) ≠ .fatal m) := by
  refine ⟨rfl, fun m => rfl, ?_⟩
  intro forms env k t n t2 hok m
  rw [stepTick_running_ok forms env k t n t2 hok]
  split
  · simp
  · simp

/-- C10 witness: a concrete tick with a successful refresh is not
fatal. -/
theorem c10_check_form_total_witness :
    stepTick [formA] envOpen 0 (.running tokFresh ∅) ≠ .fatal "boom" :=
  c10_check_form_total.2.2 [formA] envOpen 0 tokFresh ∅ tokFresh rfl "boom"

/-- C4: when the token is stale at tick `k` and the authority rejects
the refresh, the run aborts at that very tick with the fatal refresh
failure, whose message ends with the operator hint to re-run the
interactive auth flow; no probe happens at tick `k` or at any later
tick, and the state stays fatal forever, so the rejected refresh token
is never retried. -/
theorem c4_refresh_rejected_aborts (forms : List Form) (env : Env) (t0 : TokenSet)
    (k : Nat) (t : TokenSet) (n : Finset String)
    (hs : stateAt forms env (.running t0 ∅) k = .running t n)
    (hstale : env.nowAt k > t.obtained_at.getD 0 + t.expires_in.getD 0 - 300)
    (hrej : (env.refreshAt k).status ≠ 200) :
    (∀ k2, k + 1 ≤ k2 → stateAt forms env (.running t0 ∅) k2 =
      .fatal (refreshFailMsg ((env.refreshAt k).error_description.getD
        (env.refreshAt k).text))) ∧
    (∃ s, refreshFailMsg ((env.refreshAt k).error_description.getD
      (env.refreshAt k).text) = s ++ reAuthHint) ∧
    (∀ k2, k ≤ k2 →
      tickEvents forms env k2 (stateAt forms env (.running t0 ∅) k2) = []) := by
  have herr : _ensure_fresh (env.nowAt k) t (env.refreshAt k) =
      .error (refreshFailMsg ((env.refreshAt k).error_description.getD
        (env.refreshAt k).text)) := by
    simp only [_ensure_fresh]
    rw [if_pos hstale]
    simp only [_refresh_tokens]
    rw [if_pos hrej]
  have hk1 : stateAt forms env (.running t0 ∅) (k + 1) =
      .fatal (refreshFailMsg ((env.refreshAt k).error_description.getD
        (env.refreshAt k).text)) := by
    rw [stateAt_succ, hs, stepTick_running_err forms env k t n _ herr]
  refine ⟨?_, ?_, ?_⟩
  · intro k2 hk2
    exact stateAt_fatal_le forms env _ (k + 1) k2 _ hk2 hk1
  · exact ⟨"Token refresh failed: " ++
      ((env.refreshAt k).error_description.getD (env.refreshAt k).text) ++ "\n  ", rfl⟩
  · intro k2 hk2
    by_cases hkk : k2 = k
    · subst hkk
      rw [hs]
      exact tickEvents_running_err forms env k2 t n _ herr
    · have h2 := stateAt_fatal_le forms env _ (k + 1) k2 _ (by omega) hk1
      rw [h2]
      exact tickEvents_fatal forms env k2 _

/-- C4 witness: a stale token and a rejecting authority abort the run
at tick 0 with the refresh failure and no probe event. -/
theorem c4_refresh_rejected_aborts_witness :
    stateAt [formA] envRejected (.running tokFresh ∅) 1 =
      .fatal (refreshFailMsg "invalid_grant") ∧
    tickEvents [formA] envRejected 0
      (stateAt [formA] envRejected (.running tokFresh ∅) 0) = [] := by
  have h := c4_refresh_rejected_aborts [formA] envRejected tokFresh 0 tokFresh ∅
    rfl (by decide) (by decide)
  exact ⟨h.1 1 (by decide), h.2.2 0 (by decide)⟩

/-- C1: in a run started from an empty resolved set, if the form at
index `i` is ever probed with an open (Available) outcome at some tick
`k`, then the notification sink is invoked for that form exactly once
over the whole run (every trace long enough to contain tick `k` has
exactly one sink invocation for index `i`), and the form is never
probed again on any tick after `k`. -/
theorem c1_notified_exactly_once (forms : List Form) (env : Env) (t0 : TokenSet)
    (i k : Nat) (d : String)
    (hp : Event.probe i true d ∈
      tickEvents forms env k (stateAt forms env (.running t0 ∅) k)) :
    (∀ N, k < N → notifyCount i (traceUpTo forms env (.running t0 ∅) N) = 1) ∧
    (∀ k2 b d2, k < k2 → Event.probe i b d2 ∉
      tickEvents forms env k2 (stateAt forms env (.running t0 ∅) k2)) := by
  obtain ⟨t, n, t2, hs, hok, hpe⟩ := tickEvents_elim forms env k _ _ hp
  obtain ⟨m0, f, hj0, hf, hfn⟩ :=
    pollFormsAux_probe_not_mem (env.probeAt k) forms 0 n i true d hpe
  rw [Nat.zero_add] at hj0
  subst hj0
  obtain ⟨lbl, hnl⟩ := pollFormsAux_notify_of_open (env.probeAt k) forms 0 n i d hpe
  obtain ⟨m1, f1, hj1, hf1, _, hfmem, _⟩ :=
    pollFormsAux_notify_mem (env.probeAt k) forms 0 n i lbl hnl
  rw [Nat.zero_add] at hj1
  subst hj1
  rw [hf] at hf1
  have hff1 : f = f1 := Option.some_inj.mp hf1
  subst hff1
  have hA : ∀ k2 t3 n3, k + 1 ≤ k2 →
      stateAt forms env (.running t0 ∅) k2 = .running t3 n3 → f.form_id ∈ n3 := by
    intro k2 t3 n3 hk2 hrun
    obtain ⟨t4, n4, h4⟩ := stateAt_running_le forms env _ (k + 1) k2 t3 n3 hk2 hrun
    obtain ⟨heq, _⟩ := step_notified forms env _ k t n t4 n4 hs h4
    have hin4 : f.form_id ∈ n4 := by
      rw [heq]
      exact hfmem
    exact notified_mono forms env _ (k + 1) k2 t4 n4 t3 n3 hk2 h4 hrun hin4
  have hB : ∀ k2, k + 1 ≤ k2 → ∀ e,
      e ∈ tickEvents forms env k2 (stateAt forms env (.running t0 ∅) k2) →
      eventIdx e ≠ i := by
    intro k2 hk2 e he
    obtain ⟨t3, n3, t4, hs3, hok3, hpe3⟩ := tickEvents_elim forms env k2 _ _ he
    have hfid : f.form_id ∈ n3 := hA k2 t3 n3 hk2 hs3
    have hskip := pollFormsAux_skip (env.probeAt k2) forms 0 n3 i f hf hfid e hpe3
    simpa using hskip
  have hCk : notifyCount i
      (tickEvents forms env k (stateAt forms env (.running t0 ∅) k)) = 1 := by
    rw [hs, tickEvents_running_ok forms env k t n t2 hok]
    exact le_antisymm (pollFormsAux_count_le_one (env.probeAt k) forms 0 n i)
      (notifyCount_pos i lbl _ hnl)
  have hC0 : ∀ k2, k2 < k → notifyCount i
      (tickEvents forms env k2 (stateAt forms env (.running t0 ∅) k2)) = 0 := by
    intro k2 hk2
    refine notifyCount_eq_zero _ _ ?_
    intro lbl2 hmem
    obtain ⟨t3, n3, t4, hs3, hok3, hpe3⟩ := tickEvents_elim forms env k2 _ _ hmem
    obtain ⟨m2, f2, hj2, hf2, hfn2, hfmem2, _⟩ :=
      pollFormsAux_notify_mem (env.probeAt k2) forms 0 n3 i lbl2 hpe3
    rw [Nat.zero_add] at hj2
    subst hj2
    rw [hf] at hf2
    have hff2 : f = f2 := Option.some_inj.mp hf2
    subst hff2
    have hks : k2 + 1 ≤ k := by omega
    obtain ⟨t5, n5, h5⟩ := stateAt_running_le forms env _ (k2 + 1) k t n hks hs
    obtain ⟨heq5, _⟩ := step_notified forms env _ k2 t3 n3 t5 n5 hs3 h5
    have hin5 : f.form_id ∈ n5 := by
      rw [heq5]
      exact hfmem2
    have hsub : n5 ⊆ n := notified_mono forms env _ (k2 + 1) k t5 n5 t n hks h5 hs
    exact hfn (hsub hin5)
  have hCgt : ∀ k2, k < k2 → notifyCount i
      (tickEvents forms env k2 (stateAt forms env (.running t0 ∅) k2)) = 0 := by
    intro k2 hk2
    refine notifyCount_eq_zero _ _ ?_
    intro lbl2 hmem
    exact hB k2 (by omega) _ hmem rfl
  have hTr : ∀ N, notifyCount i (traceUpTo forms env (.running t0 ∅) N) =
      if k < N then 1 else 0 := by
    intro N
    induction N with
    | zero => simp [traceUpTo, notifyCount]
    | succ M ihN =>
      rw [traceUpTo_succ, notifyCount_append, ihN]
      by_cases hMk : M = k
      · subst hMk
        rw [hCk, if_neg (by omega), if_pos (by omega)]
      · by_cases hlt : M < k
        · rw [hC0 M hlt, if_neg (by omega), if_neg (by omega)]
        · have hgt : k < M := by omega
          rw [hCgt M hgt, if_pos (by omega), if_pos (by omega)]
  refine ⟨?_, ?_⟩
  · intro N hN
    rw [hTr N, if_pos hN]
  · intro k2 b d2 hk2 hmem
    exact hB k2 (by omega) _ hmem rfl

/-- C1 witness: one form, open on the first probe, is notified exactly
once and not probed on the next tick. -/
theorem c1_notified_exactly_once_witness :
    notifyCount 0 (traceUpTo [formA] envOpen (.running tokFresh ∅) 1) = 1 ∧
    Event.probe 0 true "OPEN" ∉
      tickEvents [formA] envOpen 1 (stateAt [formA] envOpen (.running tokFresh ∅) 1) := by
  have h := c1_notified_exactly_once [formA] envOpen tokFresh 0 0 "OPEN" (by decide)
  exact ⟨h.1 1 (by decide), h.2 1 true "OPEN" (by decide)⟩

/-- C5: in a run started from an empty resolved set, if the form at
index `i` is probed at tick `k` with the outcome classified
"already submitted" (AlreadyConsumed), then the sink is never invoked
for that form at any tick of the run, the form is never probed again
after tick `k`, and its form_id is in the resolved set of every later
running state (terminal EXHAUSTED). -/
theorem c5_already_consumed (forms : List Form) (env : Env) (t0 : TokenSet)
    (i k : Nat)
    (hp : Event.probe i false "already submitted" ∈
      tickEvents forms env k (stateAt forms env (.running t0 ∅) k)) :
    (∀ k2 lbl, Event.notify i lbl ∉
      tickEvents forms env k2 (stateAt forms env (.running t0 ∅) k2)) ∧
    (∀ k2 b d, k < k2 → Event.probe i b d ∉
      tickEvents forms env k2 (stateAt forms env (.running t0 ∅) k2)) ∧
    (∃ f, forms[i]? = some f ∧ ∀ t2 n2,
      stateAt forms env (.running t0 ∅) (k + 1) = .running t2 n2 →
      f.form_id ∈ n2) := by
  obtain ⟨t, n, t2, hs, hok, hpe⟩ := tickEvents_elim forms env k _ _ hp
  obtain ⟨m0, f, hj0, hf, hfn⟩ :=
    pollFormsAux_probe_not_mem (env.probeAt k) forms 0 n i false "already submitted" hpe
  rw [Nat.zero_add] at hj0
  subst hj0
  obtain ⟨m1, f1, hj1, hf1, hfmem⟩ :=
    pollFormsAux_probe_resolves (env.probeAt k) forms 0 n i false "already submitted"
      hpe (Or.inr rfl)
  rw [Nat.zero_add] at hj1
  subst hj1
  rw [hf] at hf1
  have hff1 : f = f1 := Option.some_inj.mp hf1
  subst hff1
  have hA : ∀ k2 t3 n3, k + 1 ≤ k2 →
      stateAt forms env (.running t0 ∅) k2 = .running t3 n3 → f.form_id ∈ n3 := by
    intro k2 t3 n3 hk2 hrun
    obtain ⟨t4, n4, h4⟩ := stateAt_running_le forms env _ (k + 1) k2 t3 n3 hk2 hrun
    obtain ⟨heq, _⟩ := step_notified forms env _ k t n t4 n4 hs h4
    have hin4 : f.form_id ∈ n4 := by
      rw [heq]
      exact hfmem
    exact notified_mono forms env _ (k + 1) k2 t4 n4 t3 n3 hk2 h4 hrun hin4
  have hB : ∀ k2, k + 1 ≤ k2 → ∀ e,
      e ∈ tickEvents forms env k2 (stateAt forms env (.running t0 ∅) k2) →
      eventIdx e ≠ i := by
    intro k2 hk2 e he
    obtain ⟨t3, n3, t4, hs3, hok3, hpe3⟩ := tickEvents_elim forms env k2 _ _ he
    have hfid : f.form_id ∈ n3 := hA k2 t3 n3 hk2 hs3
    have hskip := pollFormsAux_skip (env.probeAt k2) forms 0 n3 i f hf hfid e hpe3
    simpa using hskip
  refine ⟨?_, ?_, ?_⟩
  · intro k2 lbl hmem
    by_cases hkk : k2 = k
    · subst hkk
      rw [hs, tickEvents_running_ok forms env k2 t n t2 hok] at hmem
      exact pollFormsAux_closed_no_notify (env.probeAt k2) forms 0 n i
        "already submitted" hpe lbl hmem
    · by_cases hlt : k2 < k
      · obtain ⟨t3, n3, t4, hs3, hok3, hpe3⟩ := tickEvents_elim forms env k2 _ _ hmem
        obtain ⟨m2, f2, hj2, hf2, hfn2, hfmem2, _⟩ :=
          pollFormsAux_notify_mem (env.probeAt k2) forms 0 n3 i lbl hpe3
        rw [Nat.zero_add] at hj2
        subst hj2
        rw [hf] at hf2
        have hff2 : f = f2 := Option.some_inj.mp hf2
        subst hff2
        have hks : k2 + 1 ≤ k := by omega
        obtain ⟨t5, n5, h5⟩ := stateAt_running_le forms env _ (k2 + 1) k t n hks hs
        obtain ⟨heq5, _⟩ := step_notified forms env _ k2 t3 n3 t5 n5 hs3 h5
        have hin5 : f.form_id ∈ n5 := by
          rw [heq5]
          exact hfmem2
        have hsub : n5 ⊆ n := notified_mono forms env _ (k2 + 1) k t5 n5 t n hks h5 hs
        exact hfn (hsub hin5)
      · exact hB k2 (by omega) _ hmem rfl
  · intro k2 b d hk2 hmem
    exact hB k2 (by omega) _ hmem rfl
  · refine ⟨f, hf, ?_⟩
    intro t3 n3 h3
    obtain ⟨heq, _⟩ := step_notified forms env _ k t n t3 n3 hs h3
    rw [heq]
    exact hfmem

/-- C5 witness: a form probed as already submitted on tick 0 is never
notified. -/
theorem c5_already_consumed_witness :
    Event.notify 0 "FormA" ∉
      tickEvents [formA] envConsumed 0
        (stateAt [formA] envConsumed (.running tokFresh ∅) 0) :=
  (c5_already_consumed [formA] envConsumed tokFresh 0 0 (by decide)).1 0 "FormA"

/-- C9: if two distinct positions of the registry hold descriptors with
the same form_id, then (a) the poll loop never exits normally — the
resolved set is keyed by form_id so its size can never reach the length
of the registry, and `remaining = len(forms) - len(notified)` never
reaches zero — and (b) once that form_id is in the resolved set,
neither descriptor is probed again (no event concerns either index). -/
theorem c9_duplicate_form_id (forms : List Form) (env : Env) (t0 : TokenSet)
    (i j : Nat) (f g : Form) (hij : i ≠ j)
    (hi : forms[i]? = some f) (hj : forms[j]? = some g)
    (hfg : f.form_id = g.form_id) :
    (∀ N, stateAt forms env (.running t0 ∅) N ≠ .done) ∧
    (∀ k t n, stateAt forms env (.running t0 ∅) k = .running t n →
      f.form_id ∈ n →
      ∀ e, e ∈ tickEvents forms env k (stateAt forms env (.running t0 ∅) k) →
        eventIdx e ≠ i ∧ eventIdx e ≠ j) := by
  have hnd : ¬ (forms.map Form.form_id).Nodup := by
    intro hnd
    have hi2 : (forms.map Form.form_id)[i]? = some f.form_id := by
      rw [List.getElem?_map, hi]
      rfl
    have hj2 : (forms.map Form.form_id)[j]? = some g.form_id := by
      rw [List.getElem?_map, hj]
      rfl
    have hilen : i < (forms.map Form.form_id).length := by
      rw [List.length_map]
      obtain ⟨hlt, _⟩ := List.getElem?_eq_some.mp hi
      exact hlt
    have heq : (forms.map Form.form_id)[i]? = (forms.map Form.form_id)[j]? := by
      rw [hi2, hj2, hfg]
    exact hij (List.getElem?_inj hilen hnd heq)
  have hfidlt : (fidFinset forms).card < forms.length := by
    have hle := (List.dedup_sublist (forms.map Form.form_id)).length_le
    have hne : (forms.map Form.form_id).dedup.length ≠
        (forms.map Form.form_id).length := by
      intro hlen
      have heq := (List.dedup_sublist (forms.map Form.form_id)).eq_of_length hlen
      exact hnd (List.dedup_eq_self.mp heq)
    have hlt : (forms.map Form.form_id).dedup.length <
        (forms.map Form.form_id).length := by omega
    have hcard : (fidFinset forms).card = (forms.map Form.form_id).dedup.length := by
      rw [fidFinset, List.card_toFinset]
    rw [hcard]
    calc (forms.map Form.form_id).dedup.length
        < (forms.map Form.form_id).length := hlt
      _ = forms.length := List.length_map _ _
  have hcard : ∀ n2 : Finset String, n2 ⊆ fidFinset forms →
      ¬ ((forms.length : Int) - (n2.card : Int)) = 0 := by
    intro n2 hsub hzero
    have h1 : n2.card ≤ (fidFinset forms).card := Finset.card_le_card hsub
    omega
  refine ⟨?_, ?_⟩
  · intro N
    induction N with
    | zero => simp [stateAt]
    | succ M ihN =>
      rw [stateAt_succ]
      cases hsM : stateAt forms env (.running t0 ∅) M with
      | done => exact absurd hsM ihN
      | fatal m =>
        rw [stepTick_fatal]
        simp
      | running t n =>
        cases hok : _ensure_fresh (env.nowAt M) t (env.refreshAt M) with
        | error m2 =>
          rw [stepTick_running_err forms env M t n m2 hok]
          simp
        | ok t2 =>
          rw [stepTick_running_ok forms env M t n t2 hok]
          have hsub : (pollFormsAux (env.probeAt M) forms 0 n).1 ⊆ fidFinset forms := by
            intro x hx
            rcases Finset.mem_union.mp
              (pollFormsAux_out_sub (env.probeAt M) forms 0 n hx) with h | h
            · exact stateAt_inv forms env t0 M t n hsM h
            · exact h
          rw [if_neg (hcard _ hsub)]
          simp
  · intro k t n hs hfid e he
    obtain ⟨t3, n3, t4, hs3, hok3, hpe3⟩ := tickEvents_elim forms env k _ _ he
    rw [hs] at hs3
    obtain ⟨ht, hn⟩ := PollState.running.inj hs3
    subst ht
    subst hn
    constructor
    · have hskip := pollFormsAux_skip (env.probeAt k) forms 0 n i f hi hfid e hpe3
      simpa using hskip
    · have hfid2 : g.form_id ∈ n := hfg ▸ hfid
      have hskip := pollFormsAux_skip (env.probeAt k) forms 0 n j g hj hfid2 e hpe3
      simpa using hskip

/-- C9 witness: the duplicate-id registry never reaches the normal
exit. -/
theorem c9_duplicate_form_id_witness :
    stateAt dupForms envOpen (.running tokFresh ∅) 3 ≠ .done :=
  (c9_duplicate_form_id dupForms envOpen tokFresh 0 1 formDupA formDupB
    (by decide) rfl rfl rfl).1 3

theorem dupRun_fixpoint (k : Nat) :
    stepTick dupForms envOpen k (.running tokFresh {"F"}) =
      .running tokFresh {"F"} := rfl

theorem dupRun_stuck (N : Nat) :
    stateAt dupForms envOpen (.running tokFresh ∅) (N + 1) =
      .running tokFresh {"F"} := by
  induction N with
  | zero => decide
  | succ M ihN => rw [stateAt_succ, ihN, dupRun_fixpoint]

/-- C2 counterexample: with two descriptors sharing form_id "F" and
every probe open, both resources are resolved (their form_id is in the
resolved set) at the end of tick 0, yet the loop is still running after
tick 0 and never exits: `remaining = len(forms) - len(notified)` stays
at 1 forever, refuting that the loop terminates within finitely many
ticks once all resources are terminal. -/
theorem c2_counterexample :
    formDupA.form_id ∈ ({"F"} : Finset String) ∧
    formDupB.form_id ∈ ({"F"} : Finset String) ∧
    stateAt dupForms envOpen (.running tokFresh ∅) 1 = .running tokFresh {"F"} ∧
    ¬ ∃ N, stateAt dupForms envOpen (.running tokFresh ∅) N = .done := by
  refine ⟨by decide, by decide, dupRun_stuck 0, ?_⟩
  rintro ⟨N, hN⟩
  cases N with
  | zero => simp [stateAt] at hN
  | succ M =>
    rw [dupRun_stuck M] at hN
    exact absurd hN (by simp)

/-- C2 amended: provided all form_ids in the registry are pairwise
distinct, the loop exits normally exactly when every resource is
resolved: (a) if at the start of a tick every form_id is already in the
resolved set and the refresh of that tick succeeds, the loop exits
normally at the end of that tick (finitely many ticks after all become
terminal); and (b) whenever the loop exits normally at the end of a
tick, every form_id is in the resolved set produced by that tick — it
never exits while a resource is still pending.  (With duplicate
form_ids the loop can run forever, and a failed refresh aborts the run
instead of exiting it normally.) -/
theorem c2_terminates_iff_all_resolved (forms : List Form) (env : Env) (t0 : TokenSet)
    (hnd : (forms.map Form.form_id).Nodup) :
    (∀ k t n t2, stateAt forms env (.running t0 ∅) k = .running t n →
      _ensure_fresh (env.nowAt k) t (env.refreshAt k) = .ok t2 →
      (∀ f ∈ forms, f.form_id ∈ n) →
      stateAt forms env (.running t0 ∅) (k + 1) = .done) ∧
    (∀ k t n, stateAt forms env (.running t0 ∅) k = .running t n →
      stateAt forms env (.running t0 ∅) (k + 1) = .done →
      ∀ f ∈ forms, f.form_id ∈ (pollFormsAux (env.probeAt k) forms 0 n).1) := by
  constructor
  · intro k t n t2 hs hok hall
    have hinv := stateAt_inv forms env t0 k t n hs
    have hfid_n : fidFinset forms ⊆ n := by
      intro x hx
      rw [fidFinset, List.mem_toFinset, List.mem_map] at hx
      obtain ⟨f, hfmem, hfx⟩ := hx
      exact hfx ▸ hall f hfmem
    have hout_sub : (pollFormsAux (env.probeAt k) forms 0 n).1 ⊆ n := by
      intro x hx
      rcases Finset.mem_union.mp
        (pollFormsAux_out_sub (env.probeAt k) forms 0 n hx) with h | h
      · exact h
      · exact hfid_n h
    have hout_eq : (pollFormsAux (env.probeAt k) forms 0 n).1 = n :=
      Finset.Subset.antisymm hout_sub (pollFormsAux_sub (env.probeAt k) forms 0 n)
    have hneq : n = fidFinset forms := Finset.Subset.antisymm hinv hfid_n
    have hcard : n.card = forms.length := by
      rw [hneq, fidFinset, List.card_toFinset, List.dedup_eq_self.mpr hnd,
        List.length_map]
    rw [stateAt_succ, hs, stepTick_running_ok forms env k t n t2 hok, hout_eq,
      if_pos (by omega)]
  · intro k t n hs hdone f hf
    rw [stateAt_succ, hs] at hdone
    cases hok : _ensure_fresh (env.nowAt k) t (env.refreshAt k) with
    | error m =>
      rw [stepTick_running_err forms env k t n m hok] at hdone
      exact absurd hdone (by simp)
    | ok t2 =>
      rw [stepTick_running_ok forms env k t n t2 hok] at hdone
      by_cases hc : ((forms.length : Int) -
          (((pollFormsAux (env.probeAt k) forms 0 n).1.card : Int))) = 0
      · have hsub : (pollFormsAux (env.probeAt k) forms 0 n).1 ⊆ fidFinset forms := by
          intro x hx
          rcases Finset.mem_union.mp
            (pollFormsAux_out_sub (env.probeAt k) forms 0 n hx) with h | h
          · exact stateAt_inv forms env t0 k t n hs h
          · exact h
        have h1 : (pollFormsAux (env.probeAt k) forms 0 n).1.card ≤
            (fidFinset forms).card := Finset.card_le_card hsub
        have h2 : (fidFinset forms).card ≤ forms.length := by
          have := List.toFinset_card_le (forms.map Form.form_id)
          rw [List.length_map] at this
          exact this
        have h4 : (fidFinset forms).card ≤
            (pollFormsAux (env.probeAt k) forms 0 n).1.card := by omega
        have heq : (pollFormsAux (env.probeAt k) forms 0 n).1 = fidFinset forms :=
          Finset.eq_of_subset_of_card_le hsub h4
        rw [heq, fidFinset, List.mem_toFinset]
        exact List.mem_map_of_mem Form.form_id hf
      · rw [if_neg hc] at hdone
        exact absurd hdone (by simp)

/-- C2 amended, witness: a single open form resolves on tick 0 and the
loop exits with its form_id resolved. -/
theorem c2_terminates_iff_all_resolved_witness :
    formA.form_id ∈ (pollFormsAux (envOpen.probeAt 0) [formA] 0 ∅).1 :=
  (c2_terminates_iff_all_resolved [formA] envOpen tokFresh (by decide)).2
    0 tokFresh ∅ rfl (by decide) formA (by decide)

/-- C8 counterexample: in the duplicate-id registry, descriptor 0 is
probed at tick 0 with outcome NotYetOpen ("closed"), yet its form_id
ends up in the resolved set — descriptor 1, sharing the id, probed
open — and on the next tick nothing at all is probed: the resource did
not remain PENDING and is not probed again. -/
theorem c8_counterexample :
    _check_form (envDupMixed.probeAt 0 0) = (false, "closed") ∧
    Event.probe 0 false "closed" ∈
      tickEvents dupForms envDupMixed 0
        (stateAt dupForms envDupMixed (.running tokFresh ∅) 0) ∧
    formDupA.form_id ∈ ({"F"} : Finset String) ∧
    stateAt dupForms envDupMixed (.running tokFresh ∅) 1 =
      .running tokFresh {"F"} ∧
    tickEvents dupForms envDupMixed 1
      (stateAt dupForms envDupMixed (.running tokFresh ∅) 1) = [] := by
  refine ⟨rfl, by decide, by decide, by decide, by decide⟩

/-- C8 amended: for a pending resource whose form_id no other
descriptor shares, a probe outcome at tick `k` that is neither open nor
"already submitted" (NotYetOpen, Other, Transient — the detail string
is arbitrary) leaves the resource PENDING: no notification for it that
tick, its form_id is not added to the resolved set, and — provided the
refresh of the next tick also succeeds, so the run continues — it is
probed again on the next tick. -/
theorem c8_pending_reprobe (forms : List Form) (env : Env) (t0 : TokenSet)
    (i k : Nat) (f : Form) (t : TokenSet) (n : Finset String) (t2 : TokenSet)
    (hf : forms[i]? = some f)
    (huniq : ∀ j g, forms[j]? = some g → g.form_id = f.form_id → j = i)
    (hs : stateAt forms env (.running t0 ∅) k = .running t n)
    (hok : _ensure_fresh (env.nowAt k) t (env.refreshAt k) = .ok t2)
    (hpend : f.form_id ∉ n)
    (hnotopen : (_check_form (env.probeAt k i)).1 = false)
    (hnotcons : (_check_form (env.probeAt k i)).2 ≠ "already submitted") :
    (∀ lbl, Event.notify i lbl ∉
      tickEvents forms env k (stateAt forms env (.running t0 ∅) k)) ∧
    f.form_id ∉ (pollFormsAux (env.probeAt k) forms 0 n).1 ∧
    (∀ t3, _ensure_fresh (env.nowAt (k + 1)) t2 (env.refreshAt (k + 1)) = .ok t3 →
      Event.probe i ((_check_form (env.probeAt (k + 1) i)).1)
          ((_check_form (env.probeAt (k + 1) i)).2) ∈
        tickEvents forms env (k + 1) (stateAt forms env (.running t0 ∅) (k + 1))) := by
  have hfirst : ∀ m2 g, m2 < i → forms[m2]? = some g →
      g.form_id ≠ f.form_id := by
    intro m2 g hlt hg hc
    have := huniq m2 g hg hc
    omega
  have hprobe : Event.probe i ((_check_form (env.probeAt k i)).1)
      ((_check_form (env.probeAt k i)).2) ∈
      (pollFormsAux (env.probeAt k) forms 0 n).2 := by
    have h := pollFormsAux_probe_of_pending (env.probeAt k) forms 0 n i f
      (by simpa using hf) hpend (by simpa using hfirst)
    simpa using h
  have hprobe2 : Event.probe i false ((_check_form (env.probeAt k i)).2) ∈
      (pollFormsAux (env.probeAt k) forms 0 n).2 := by
    rw [← hnotopen]
    exact hprobe
  have hnotin : f.form_id ∉ (pollFormsAux (env.probeAt k) forms 0 n).1 := by
    intro hmem
    obtain ⟨m, g, hg, hgid, hres⟩ :=
      pollFormsAux_mem_out (env.probeAt k) forms 0 n f.form_id hmem hpend
    have hmi : m = i := huniq m g hg hgid
    subst hmi
    rw [Nat.zero_add] at hres
    rcases hres with h | h
    · rw [hnotopen] at h
      exact absurd h (by simp)
    · exact hnotcons h
  refine ⟨?_, hnotin, ?_⟩
  · intro lbl hmem
    rw [hs, tickEvents_running_ok forms env k t n t2 hok] at hmem
    exact pollFormsAux_closed_no_notify (env.probeAt k) forms 0 n i
      ((_check_form (env.probeAt k i)).2) hprobe2 lbl hmem
  · intro t3 hok3
    have hcardlt : (pollFormsAux (env.probeAt k) forms 0 n).1.card < forms.length := by
      have hsub : (pollFormsAux (env.probeAt k) forms 0 n).1 ⊆ fidFinset forms := by
        intro x hx
        rcases Finset.mem_union.mp
          (pollFormsAux_out_sub (env.probeAt k) forms 0 n hx) with h | h
        · exact stateAt_inv forms env t0 k t n hs h
        · exact h
      have hfmem : f.form_id ∈ fidFinset forms := by
        rw [fidFinset, List.mem_toFinset]
        exact List.mem_map_of_mem Form.form_id (List.getElem?_mem hf)
      have hsub2 : (pollFormsAux (env.probeAt k) forms 0 n).1 ⊆
          (fidFinset forms).erase f.form_id :=
        Finset.subset_erase.mpr ⟨hsub, hnotin⟩
      have h1 : (pollFormsAux (env.probeAt k) forms 0 n).1.card ≤
          ((fidFinset forms).erase f.form_id).card := Finset.card_le_card hsub2
      have h2 : ((fidFinset forms).erase f.form_id).card =
          (fidFinset forms).card - 1 := Finset.card_erase_of_mem hfmem
      have h3 : (fidFinset forms).card ≤ forms.length := by
        have := List.toFinset_card_le (forms.map Form.form_id)
        rw [List.length_map] at this
        exact this
      have h4 : 0 < (fidFinset forms).card := Finset.card_pos.mpr ⟨f.form_id, hfmem⟩
      omega
    have hnext : stateAt forms env (.running t0 ∅) (k + 1) =
        .running t2 (pollFormsAux (env.probeAt k) forms 0 n).1 := by
      rw [stateAt_succ, hs, stepTick_running_ok forms env k t n t2 hok,
        if_neg (by omega)]
    rw [hnext, tickEvents_running_ok forms env (k + 1) t2 _ t3 hok3]
    have h := pollFormsAux_probe_of_pending (env.probeAt (k + 1)) forms 0
      (pollFormsAux (env.probeAt k) forms 0 n).1 i f
      (by simpa using hf) hnotin (by simpa using hfirst)
    simpa using h

/-- C8 amended, witness: a single form probed as closed on tick 0 is
not resolved and is probed again on tick 1. -/
theorem c8_pending_reprobe_witness :
    formA.form_id ∉ (pollFormsAux (envClosed.probeAt 0) [formA] 0 ∅).1 ∧
    Event.probe 0 ((_check_form (envClosed.probeAt 1 0)).1)
        ((_check_form (envClosed.probeAt 1 0)).2) ∈
      tickEvents [formA] envClosed 1
        (stateAt [formA] envClosed (.running tokFresh ∅) 1) := by
  have huniq : ∀ j g, ([formA] : List Form)[j]? = some g →
      g.form_id = formA.form_id → j = 0 := by
    intro j g hg _
    cases j with
    | zero => rfl
    | succ m =>
      rw [List.getElem?_cons_succ, List.getElem?_nil] at hg
      exact absurd hg (by simp)
  have h := c8_pending_reprobe [formA] envClosed tokFresh 0 0 formA tokFresh ∅
    tokFresh rfl huniq rfl rfl (by decide) rfl (by decide)
  exact ⟨h.2.1, h.2.2 tokFresh rfl⟩
